import Mathlib

/-!
Shallow embedding of the event-normalization pipeline of the echo.lu
kiosk display (`fetchEchoData` in `app.vue` and its sibling component).

Instants are modelled as integers: milliseconds since the Unix epoch
(1970-01-01 was a Thursday).  The JavaScript code works in the local
timezone of the browser; the model identifies local time with UTC, which
is the standard timezone-agnostic reading of the date arithmetic.
`Date` comparison (`>=`, `isBefore`) becomes integer comparison on the
millisecond timestamps.
-/

namespace Echo

/-- Milliseconds in a day. -/
def dayMs : Int := 86400000

/-- Milliseconds in a week (`addWeeks(d, 1)` adds this). -/
def weekMs : Int := 7 * dayMs

/-- `Date.prototype.getDay()`: 0 = Sunday .. 6 = Saturday.
The Unix epoch day 0 was a Thursday (weekday 4). -/
def jsGetDay (t : Int) : Int := (t.ediv dayMs + 4).emod 7

/-- `Date.prototype.getHours()` (local = UTC in the model). -/
def jsGetHours (t : Int) : Int := (t.emod dayMs).ediv 3600000

/-- `Date.prototype.getMinutes()`. -/
def jsGetMinutes (t : Int) : Int := (t.emod 3600000).ediv 60000

/-- date-fns `setDay(t, i)` with the default `weekStartsOn = 0`:
move to weekday `i` of the current (Sunday-first) week, keeping the
time of day: `addDays(t, i - getDay(t))`. -/
def jsSetDay (t : Int) (i : Nat) : Int := t + ((i : Int) - jsGetDay t) * dayMs

/-- The three locales the display supports (`fr` is the default). -/
inductive Lang where
  | fr | de | en
deriving DecidableEq, Repr

/-- A localized string table (`record.title`, `record.description`):
a JSON object with optional `fr`/`de`/`en` keys. -/
structure LocaleStrings where
  fr : Option String
  de : Option String
  en : Option String
deriving DecidableEq, Repr

/-- `obj[lang]` for `lang ∈ {fr, de, en}`. -/
def LocaleStrings.get (t : LocaleStrings) : Lang → Option String
  | .fr => t.fr
  | .de => t.de
  | .en => t.en

/-- Weekday keys of an `openingHours` object. -/
inductive Day where
  | sunday | monday | tuesday | wednesday | thursday | friday | saturday
deriving DecidableEq, Repr

/-- One opening-hours entry: `{from: "HH:MM", ...}`.  The source field is
called `from`; that word is reserved in Lean, hence `hFrom`. -/
structure Entry where
  hFrom : String
deriving DecidableEq, Repr

/-- `openingHours`: a JSON object with up to seven weekday keys. -/
structure OpeningHours where
  sunday : Option Entry
  monday : Option Entry
  tuesday : Option Entry
  wednesday : Option Entry
  thursday : Option Entry
  friday : Option Entry
  saturday : Option Entry
deriving DecidableEq, Repr

/-- `openingHours[day]`. -/
def OpeningHours.get (oh : OpeningHours) : Day → Option Entry
  | .sunday => oh.sunday
  | .monday => oh.monday
  | .tuesday => oh.tuesday
  | .wednesday => oh.wednesday
  | .thursday => oh.thursday
  | .friday => oh.friday
  | .saturday => oh.saturday

/-- One element of `record.dates[]`: `{from, to, openingHours?}`.
`from`/`to` are modelled as parsed instants (`dFrom`/`dTo`; `from` and
`to` clash with Lean keywords). -/
structure DateObject where
  dFrom : Int
  dTo : Int
  openingHours : Option OpeningHours
deriving DecidableEq, Repr

/-! ### 4.1 Date-window selector

```js
let dateFrom, dateTo, openingHours;
for (const dateObject of record.dates) {
  dateFrom = new Date(dateObject.from);
  dateTo = new Date(dateObject.to);
  openingHours = dateObject.openingHours;
  if (dateFrom >= now || record.dates.length === 1) break;
}
if (!dateFrom || !dateTo) { dateFrom = now; dateTo = now; openingHours = null; }
```

A `Date` object is always truthy in JavaScript, so the final fallback
fires exactly when `record.dates` is empty.  The loop breaks at the
first entry with `from >= now` (a single-entry list breaks immediately
via `length === 1`); if it never breaks, the last assignment — the last
list element — survives. -/

/-- The loop body: returns the entry at which the loop stops, `none` for
an empty list.  The `length === 1` break condition makes a singleton
list stop at its only element unconditionally; for a longer list the
last element is kept when no entry satisfies `from >= now`. -/
def selectLoop (now : Int) : List DateObject → Option DateObject
  | [] => none
  | [d] => some d
  | d :: d' :: ds => if d.dFrom ≥ now then some d else selectLoop now (d' :: ds)

/-- The selected window `(dateFrom, dateTo, openingHours)`, with the
`{from: now, to: now, openingHours: null}` fallback for an empty list. -/
def selectWindow (dates : List DateObject) (now : Int) : Int × Int × Option OpeningHours :=
  match selectLoop now dates with
  | some d => (d.dFrom, d.dTo, d.openingHours)
  | none => (now, now, none)

/-- The spec's description of the selector, written from its words:
first entry whose `from >= now`; else (all in the past, or none) the
last entry examined — which for a nonempty list is the last element,
and for a singleton list is its only element; else the
`{from: now, to: now, openingHours: null}` fallback. -/
def selectWindowSpec (dates : List DateObject) (now : Int) : Int × Int × Option OpeningHours :=
  match dates.find? (fun d => decide (d.dFrom ≥ now)) with
  | some d => (d.dFrom, d.dTo, d.openingHours)
  | none =>
    match dates.getLast? with
    | some d => (d.dFrom, d.dTo, d.openingHours)
    | none => (now, now, none)

/-! ### 4.2 Recurring-event next-occurrence resolver

```js
const daysOfWeek = ['sunday','monday','tuesday','wednesday','thursday','friday','saturday'];
let nextDate = null, nextTime = null;
for (let i = 0; i < 7; i++) {
  const checkDate = addWeeks(now, 0);
  for (const [index, day] of daysOfWeek.entries()) {
    if (openingHours[day]) {
      let possibleDate = setDay(checkDate, index);
      if (index === now.getDay() &&
          now.getHours() > parseInt(openingHours[day].from.split(':')[0])) {
        possibleDate = addWeeks(possibleDate, 1);
      }
      if (index < now.getDay()) { possibleDate = addWeeks(possibleDate, 1); }
      if (!isBefore(possibleDate, parseISO(record.dates[0].from)) &&
          !isBefore(parseISO(record.dates[0].to), possibleDate)) {
        if (nextDate === null || isBefore(possibleDate, nextDate)) {
          nextDate = possibleDate; nextTime = openingHours[day].from;
        }
      }
    }
  }
}
```
-/

/-- The JavaScript whitespace class (`\s`, and the set trimmed by
`String.prototype.trim`): tab, LF, VT, FF, CR, space, NBSP, Ogham
space, the U+2000–U+200A range, LS, PS, NNBSP, MMSP, ideographic
space, and the BOM U+FEFF. -/
def isJsSpace (c : Char) : Bool :=
  c.toNat = 9 || c.toNat = 10 || c.toNat = 11 || c.toNat = 12 || c.toNat = 13 ||
  c.toNat = 32 || c.toNat = 160 || c.toNat = 5760 ||
  (8192 ≤ c.toNat && c.toNat ≤ 8202) ||
  c.toNat = 8232 || c.toNat = 8233 || c.toNat = 8239 || c.toNat = 8287 ||
  c.toNat = 12288 || c.toNat = 65279

/-- `parseInt(s)` restricted to decimal notation: skip leading
whitespace, optional sign, then leading decimal digits; `none` models
`NaN` (no digits).  The `0x` hexadecimal prefix of full `parseInt` is
not modelled: the inputs here are the hour parts of `"HH:MM"` strings. -/
def jsParseInt (s : String) : Option Int :=
  let cs := s.toList.dropWhile isJsSpace
  let signed : Int × List Char :=
    match cs with
    | '-' :: rest => (-1, rest)
    | '+' :: rest => (1, rest)
    | _ => (1, cs)
  let ds := signed.2.takeWhile Char.isDigit
  if ds.isEmpty then none
  else some (signed.1 * ds.foldl (fun acc c => acc * 10 + ((c.toNat : Int) - 48)) 0)

/-- `s.split(':')[0]`: the prefix before the first colon. -/
def splitColonHead (s : String) : String :=
  String.mk (s.toList.takeWhile (fun c => c != ':'))

/-- `h > v` where `v` may be `NaN` (any comparison with `NaN` is false). -/
def gtNaN (h : Int) : Option Int → Bool
  | some v => decide (h > v)
  | none => false

/-- Lines 171–180: the candidate occurrence for weekday `index` with
opening-hours entry `e`, starting from the current week and advancing
by one week when today's hour is already past the entry's hour, or when
the weekday is earlier in the week than today. -/
def possibleDateFor (now : Int) (index : Nat) (e : Entry) : Int :=
  let possible := jsSetDay now index
  let possible :=
    if (index : Int) = jsGetDay now ∧
       gtNaN (jsGetHours now) (jsParseInt (splitColonHead e.hFrom)) = true
    then possible + weekMs else possible
  if (index : Int) < jsGetDay now then possible + weekMs else possible

/-- `daysOfWeek.entries()`: Sunday-first, with indices. -/
def daysOfWeekIdx : List (Nat × Day) :=
  [(0, .sunday), (1, .monday), (2, .tuesday), (3, .wednesday),
   (4, .thursday), (5, .friday), (6, .saturday)]

/-- Body of the inner loop for one weekday: keep the accumulator unless
this weekday has an entry whose candidate lies inside the closed range
`[d0From, d0To]` (of `record.dates[0]`) and is strictly earlier than the
accumulated one. -/
def tryDay (now d0From d0To : Int) (oh : OpeningHours)
    (acc : Option (Int × String)) (p : Nat × Day) : Option (Int × String) :=
  match oh.get p.2 with
  | none => acc
  | some e =>
    let possible := possibleDateFor now p.1 e
    if d0From ≤ possible ∧ possible ≤ d0To then
      match acc with
      | none => some (possible, e.hFrom)
      | some nd => if possible < nd.1 then some (possible, e.hFrom) else acc
    else acc

/-- One pass of the inner `for (const [index, day] of daysOfWeek.entries())`. -/
def innerPass (now d0From d0To : Int) (oh : OpeningHours)
    (acc : Option (Int × String)) : Option (Int × String) :=
  daysOfWeekIdx.foldl (tryDay now d0From d0To oh) acc

/-- The full resolver: the outer `for (let i = 0; i < 7; i++)` repeats
the identical inner pass seven times. -/
def resolveNext (now d0From d0To : Int) (oh : OpeningHours) : Option (Int × String) :=
  (List.range 7).foldl (fun acc _ => innerPass now d0From d0To oh acc) none

/-- The accepted candidates `(date, fromTime)` contributed by the
weekdays of `l`: one per weekday that has an entry and whose candidate
occurrence lies in the closed interval `[d0From, d0To]`. -/
def candList (now d0From d0To : Int) (oh : OpeningHours) (l : List (Nat × Day)) :
    List (Int × String) :=
  l.filterMap (fun p =>
    (oh.get p.2).bind (fun e =>
      let possible := possibleDateFor now p.1 e
      if d0From ≤ possible ∧ possible ≤ d0To then some (possible, e.hFrom) else none))

/-- Claim-side view: the list of accepted candidates in Sunday-first
weekday order. -/
def candidatesOf (now d0From d0To : Int) (oh : OpeningHours) : List (Int × String) :=
  candList now d0From d0To oh daysOfWeekIdx

/-- Claim-side view: first strict minimum of a candidate list — the
earliest candidate, ties broken in favor of the earlier list position. -/
def pickMin (acc : Option (Int × String)) : List (Int × String) → Option (Int × String)
  | [] => acc
  | c :: cs =>
    pickMin (match acc with
             | none => some c
             | some a => if c.1 < a.1 then some c else some a) cs

/-! ### Date formatting (date-fns `format`)

`dd/MM/yyyy`, `HH:mm` and the localized weekday `EEEE`, all in the
model's UTC-as-local time.  Calendar conversion uses the standard
civil-from-days algorithm. -/

/-- Proleptic Gregorian `(year, month, day)` of a day number counted
from 1970-01-01. -/
def civilFromDays (z0 : Int) : Int × Int × Int :=
  let z := z0 + 719468
  let era := z.ediv 146097
  let doe := z - era * 146097
  let yoe := (doe - doe.ediv 1460 + doe.ediv 36524 - doe.ediv 146096).ediv 365
  let y := yoe + era * 400
  let doy := doe - (365 * yoe + yoe.ediv 4 - yoe.ediv 100)
  let mp := (5 * doy + 2).ediv 153
  let d := doy - (153 * mp + 2).ediv 5 + 1
  let m := mp + (if mp < 10 then 3 else -9)
  (y + (if m ≤ 2 then 1 else 0), m, d)

/-- Two-digit zero padding (`dd`, `MM`, `HH`, `mm`). -/
def pad2 (n : Int) : String :=
  if n < 10 then "0" ++ toString n else toString n

/-- Four-digit zero padding (`yyyy`; the modelled years are CE). -/
def pad4 (n : Int) : String :=
  if n < 10 then "000" ++ toString n
  else if n < 100 then "00" ++ toString n
  else if n < 1000 then "0" ++ toString n
  else toString n

/-- `format(t, 'dd/MM/yyyy')`. -/
def fmtDate (t : Int) : String :=
  let c := civilFromDays (t.ediv dayMs)
  pad2 c.2.2 ++ "/" ++ pad2 c.2.1 ++ "/" ++ pad4 c.1

/-- `format(t, 'HH:mm')`. -/
def fmtHM (t : Int) : String :=
  pad2 (jsGetHours t) ++ ":" ++ pad2 (jsGetMinutes t)

/-- date-fns `EEEE` day names for the three locales (fr, de, enUS). -/
def weekdayNames : Lang → List String
  | .fr => ["dimanche", "lundi", "mardi", "mercredi", "jeudi", "vendredi", "samedi"]
  | .de => ["Sonntag", "Montag", "Dienstag", "Mittwoch", "Donnerstag", "Freitag", "Samstag"]
  | .en => ["Sunday", "Monday", "Tuesday", "Wednesday", "Thursday", "Friday", "Saturday"]

/-- `format(t, 'EEEE', { locale })`. -/
def weekdayName (lang : Lang) (t : Int) : String :=
  (weekdayNames lang).getD (jsGetDay t).toNat ""

/-- Lines 194–206: `(date, dateString)` for a recurring event —
the resolved next occurrence formatted as
`"<Weekday>, <dd/MM/yyyy>, <HH:MM>"`, or the `"From ... to ..."`
fallback built from the selected window `(dateFrom, dateTo)`. -/
def recurringDateString (lang : Lang) (now d0From d0To dateFrom dateTo : Int)
    (oh : OpeningHours) : Int × String :=
  match resolveNext now d0From d0To oh with
  | some nd => (nd.1, weekdayName lang nd.1 ++ ", " ++ fmtDate nd.1 ++ ", " ++ nd.2)
  | none => (dateFrom, "From " ++ fmtDate dateFrom ++ " to " ++ fmtDate dateTo)

/-- Lines 208–225: the date string for a non-recurring event. -/
def nonRecurringDateString (lang : Lang) (dateFrom dateTo : Int) : String :=
  let timeDiff := dateTo - dateFrom
  let moreThan24Hours := timeDiff > 24 * 60 * 60 * 1000
  let day := weekdayName lang dateFrom
  let startDate := fmtDate dateFrom
  let endDate := fmtDate dateTo
  let startTime := fmtHM dateFrom
  let endTime := fmtHM dateTo
  if moreThan24Hours then "From " ++ startDate ++ " to " ++ endDate
  else if startDate = endDate then day ++ ", " ++ startDate ++ ", " ++ startTime
  else day ++ ", " ++ startDate ++ ", " ++ startTime ++ "-" ++ endTime

/-! ### 4.4 Description sanitization (lines 263–286)

```js
rawDescription = rawDescription.replace(/<style[^>]*>[\s\S]*?<\/style>/gi, '');
rawDescription = rawDescription.match(/<p>(.*?)<\/p>/g)?.map((match) => {
  return match.replace(/<p>(.*?)<\/p>/, '$1').replace(/<[^>]*>/g, '');
})?.join('\n\n') || '';
rawDescription = rawDescription.replace(/<[^>]*>/g, '').trim().replace(/\s+/g, ' ');
rawDescription = rawDescription.replace(/\u{FEFF}/gu, '<br/><br/>');
rawDescription = rawDescription.replace(/&nbsp;/g, ' ');
```

The regex operations are modelled directly on character lists; the
global scans are written with an explicit fuel argument equal to the
input length, which bounds the recursion since every step either emits
one character or consumes at least one. -/

/-- ASCII lowercase fold, for the `/i` flag on ASCII patterns. -/
def lcAscii (c : Char) : Char :=
  if 65 ≤ c.toNat ∧ c.toNat ≤ 90 then Char.ofNat (c.toNat + 32) else c

/-- Case-insensitive prefix test against an already-lowercase pattern. -/
def startsCI : List Char → List Char → Bool
  | [], _ => true
  | _ :: _, [] => false
  | p :: ps, c :: cs => (lcAscii c = p) && startsCI ps cs

/-- `<style` (lowercased pattern). -/
def openStylePat : List Char := ['<', 's', 't', 'y', 'l', 'e']

/-- `</style>` (lowercased pattern). -/
def closeStylePat : List Char := ['<', '/', 's', 't', 'y', 'l', 'e', '>']

/-- After `<style`: `[^>]*>` — consume through the first `'>'`,
failing when no `'>'` remains. -/
def afterStyleOpen : List Char → Option (List Char)
  | [] => none
  | c :: cs => if c = '>' then some cs else afterStyleOpen cs

/-- `[\s\S]*?<\/style>` (lazy, `/i`): drop through the first
case-insensitive `</style>`, failing when there is none. -/
def dropThroughCloseStyle : List Char → Option (List Char)
  | [] => none
  | c :: cs =>
    if startsCI closeStylePat (c :: cs) then some ((c :: cs).drop 8)
    else dropThroughCloseStyle cs

/-- Attempt to match `/<style[^>]*>[\s\S]*?<\/style>/i` at the head of
the input; on success return the remainder after the match. -/
def tryStyle (l : List Char) : Option (List Char) :=
  if startsCI openStylePat l then
    match afterStyleOpen (l.drop 6) with
    | none => none
    | some rest => dropThroughCloseStyle rest
  else none

/-- Global replacement of style blocks by the empty string. -/
def removeStylesGo : Nat → List Char → List Char
  | 0, l => l
  | _ + 1, [] => []
  | fuel + 1, c :: cs =>
    match tryStyle (c :: cs) with
    | some rest => removeStylesGo fuel rest
    | none => c :: removeStylesGo fuel cs

/-- `.replace(/<style[^>]*>[\s\S]*?<\/style>/gi, '')`. -/
def removeStyleBlocks (l : List Char) : List Char := removeStylesGo l.length l

/-- `<p>` pattern (the regex has no `/i` flag). -/
def pOpenPat : List Char := ['<', 'p', '>']

/-- `</p>` pattern. -/
def pClosePat : List Char := ['<', '/', 'p', '>']

/-- JavaScript line terminators, which `.` does not match. -/
def isJsNewline (c : Char) : Bool :=
  c.toNat = 10 || c.toNat = 13 || c.toNat = 8232 || c.toNat = 8233

/-- `(.*?)<\/p>`: the captured content up to the first `</p>`, crossing
no line terminator; also returns the remainder after `</p>`. -/
def pContent : List Char → Option (List Char × List Char)
  | [] => none
  | c :: cs =>
    if List.isPrefixOf pClosePat (c :: cs) then some ([], (c :: cs).drop 4)
    else if isJsNewline c then none
    else
      match pContent cs with
      | none => none
      | some r => some (c :: r.1, r.2)

/-- `.match(/<p>(.*?)<\/p>/g)`: the captured contents of all
non-overlapping matches, scanning left to right. -/
def matchPsGo : Nat → List Char → List (List Char)
  | 0, _ => []
  | _ + 1, [] => []
  | fuel + 1, c :: cs =>
    if List.isPrefixOf pOpenPat (c :: cs) then
      match pContent ((c :: cs).drop 3) with
      | some r => r.1 :: matchPsGo fuel r.2
      | none => matchPsGo fuel cs
    else matchPsGo fuel cs

/-- All paragraph contents of the input. -/
def matchPs (l : List Char) : List (List Char) := matchPsGo l.length l

/-- After `'<'`: the remainder past the first `'>'`, or `none`. -/
def tagEnd : List Char → Option (List Char)
  | [] => none
  | c :: cs => if c = '>' then some cs else tagEnd cs

/-- Global `.replace(/<[^>]*>/g, '')`. -/
def stripTagsGo : Nat → List Char → List Char
  | 0, l => l
  | _ + 1, [] => []
  | fuel + 1, c :: cs =>
    if c = '<' then
      match tagEnd cs with
      | some rest => stripTagsGo fuel rest
      | none => c :: stripTagsGo fuel cs
    else c :: stripTagsGo fuel cs

/-- `.replace(/<[^>]*>/g, '')`. -/
def stripTags (l : List Char) : List Char := stripTagsGo l.length l

/-- `String.prototype.trim()`. -/
def jsTrim (l : List Char) : List Char :=
  ((l.dropWhile isJsSpace).reverse.dropWhile isJsSpace).reverse

/-- `.replace(/\s+/g, ' ')`: collapse each whitespace run to one space. -/
def collapseWsGo : Nat → List Char → List Char
  | 0, l => l
  | _ + 1, [] => []
  | fuel + 1, c :: cs =>
    if isJsSpace c then ' ' :: collapseWsGo fuel (cs.dropWhile isJsSpace)
    else c :: collapseWsGo fuel cs

/-- `.replace(/\s+/g, ' ')`. -/
def collapseWs (l : List Char) : List Char := collapseWsGo l.length l

/-- `.replace(/\u{FEFF}/gu, '<br/><br/>')`. -/
def replaceFeff : List Char → List Char
  | [] => []
  | c :: cs =>
    if c.toNat = 65279 then
      ['<', 'b', 'r', '/', '>', '<', 'b', 'r', '/', '>'] ++ replaceFeff cs
    else c :: replaceFeff cs

/-- `&nbsp;` pattern. -/
def nbspPat : List Char := ['&', 'n', 'b', 's', 'p', ';']

/-- Global `.replace(/&nbsp;/g, ' ')`. -/
def replaceNbspGo : Nat → List Char → List Char
  | 0, l => l
  | _ + 1, [] => []
  | fuel + 1, c :: cs =>
    if List.isPrefixOf nbspPat (c :: cs) then ' ' :: replaceNbspGo fuel ((c :: cs).drop 6)
    else c :: replaceNbspGo fuel cs

/-- `.replace(/&nbsp;/g, ' ')`. -/
def replaceNbsp (l : List Char) : List Char := replaceNbspGo l.length l

/-- The full sanitization pipeline of lines 263–286.  Each element of a
non-null paragraph match list is `<p>…</p>`, so its
`.replace(/<p>(.*?)<\/p>/, '$1')` step yields exactly the captured
content; the subsequent `.replace(/<[^>]*>/g, '')` is `stripTags`.
When `match` returns `null`, optional chaining makes the whole
expression `undefined` and `|| ''` turns it into the empty string. -/
def sanitizeDescription (s : String) : String :=
  let l0 := removeStyleBlocks s.toList
  let ps := matchPs l0
  let l1 :=
    match ps with
    | [] => []
    | _ => List.intercalate ['\n', '\n'] (ps.map stripTags)
  let l2 := collapseWs (jsTrim (stripTags l1))
  String.mk (replaceNbsp (replaceFeff l2))

/-! ### Records, events, and the full normalizer -/

/-- `venue.location.address`: optional string components. -/
structure Address where
  number : Option String
  street : Option String
  postcode : Option String
  town : Option String
deriving DecidableEq, Repr

/-- `venue.location`. -/
structure Location where
  address : Option Address
deriving DecidableEq, Repr

/-- One element of `record.venues[]`. -/
structure Venue where
  location : Option Location
deriving DecidableEq, Repr

/-- `picture.previews.media`. -/
structure Media where
  url : Option String
deriving DecidableEq, Repr

/-- `picture.previews`. -/
structure Previews where
  media : Option Media
deriving DecidableEq, Repr

/-- One element of `record.pictures[]`. -/
structure Picture where
  previews : Option Previews
deriving DecidableEq, Repr

/-- `record.salesContact`. -/
structure Contact where
  name : Option String
  phone : Option String
  email : Option String
  website : Option String
deriving DecidableEq, Repr

/-- A raw API record with all the objects the normalizer dereferences
without optional chaining present (`dates`, `venues`, `pictures`,
`title`, `description`); see `RawRecord` for the partial form. -/
structure Record where
  id : String
  dates : List DateObject
  venues : List Venue
  pictures : List Picture
  title : LocaleStrings
  description : LocaleStrings
  salesContact : Option Contact
deriving DecidableEq, Repr

/-- JavaScript `x || y` on an optional string: an absent or empty
(falsy) left operand yields the right operand. -/
def jsOrS : Option String → String → String
  | some s, d => if s = "" then d else s
  | none, d => d

/-- Line 237: `record.title[lang] || record.title.fr || record.title.de
|| record.title.en || 'Événement'`. -/
def resolveTitle (lang : Lang) (t : LocaleStrings) : String :=
  jsOrS (t.get lang) (jsOrS t.fr (jsOrS t.de (jsOrS t.en "Événement")))

/-- Line 261: the same chain for the description, with `''` fallback. -/
def resolveDescriptionText (lang : Lang) (d : LocaleStrings) : String :=
  jsOrS (d.get lang) (jsOrS d.fr (jsOrS d.de (jsOrS d.en "")))

/-- Lines 239–243: the `upcomingEventsTranslation` table. -/
def upcomingEventsLabel : Lang → String
  | .fr => "Événements à venir"
  | .de => "Kommende Ereignisse"
  | .en => "Upcoming Events"

/-- Lines 245–249: the `organizerTranslation` table. -/
def organizerLabel : Lang → String
  | .fr => "Informations sur l\x27organisateur"
  | .de => "Infos zum Organisator"
  | .en => "Organizer Information"

/-- The normalized display event (the object literal of lines 293–311). -/
structure Event where
  id : String
  url : String
  title : String
  description : String
  date : Int
  dateString : String
  address : String
  imageUrl : String
  absoluteImageUrl : String
  initialDescription : String
  contactName : Option String
  phone : Option String
  email : Option String
  website : Option String
  record : Record
  upcomingEvents : String
  organizerInformation : String
deriving DecidableEq, Repr

/-- Line 236: `record.pictures[0]?.previews?.media?.url || ''`. -/
def recordImageUrl (r : Record) : String :=
  jsOrS (((r.pictures.head?.bind Picture.previews).bind Previews.media).bind Media.url) ""

/-- One record through the whole normalizer (the body of the `.map`
callback, lines 134–311), at a frozen clock `now`. -/
def toEvent (lang : Lang) (now : Int) (r : Record) : Event :=
  let sel := selectWindow r.dates now
  let dateFrom := sel.1
  let dateTo := sel.2.1
  let d0 := r.dates.headD ⟨now, now, none⟩
  let ds : Int × String :=
    match sel.2.2 with
    | some oh => recurringDateString lang now d0.dFrom d0.dTo dateFrom dateTo oh
    | none => (dateFrom, nonRecurringDateString lang dateFrom dateTo)
  let venue := r.venues.head?
  let addr := (venue.bind Venue.location).bind Location.address
  let number := (addr.bind Address.number).getD ""
  let street := (addr.bind Address.street).getD ""
  let postcode := (addr.bind Address.postcode).getD ""
  let town := (addr.bind Address.town).getD ""
  let imageUrl := recordImageUrl r
  let initialDescription := resolveDescriptionText lang r.description
  { id := r.id
    url := "https://www.echo.lu/en/experiences/" ++ r.id
    title := resolveTitle lang r.title
    description := sanitizeDescription initialDescription
    date := ds.1
    dateString := ds.2
    address := number ++ " " ++ street ++ ", " ++ postcode ++ " " ++ town
    imageUrl := imageUrl
    absoluteImageUrl :=
      if imageUrl ≠ "" then
        (if List.isPrefixOf "http".toList imageUrl.toList then imageUrl
         else "https://echo.lu" ++ imageUrl)
      else ""
    initialDescription := initialDescription
    contactName := r.salesContact.bind Contact.name
    phone := r.salesContact.bind Contact.phone
    email := r.salesContact.bind Contact.email
    website := r.salesContact.bind Contact.website
    record := r
    upcomingEvents := upcomingEventsLabel lang
    organizerInformation := organizerLabel lang }

/-- The comparison `a.date.getTime() - b.date.getTime() <= 0` realized
as the sorting order of the `.sort` call. -/
def eventLE (a b : Event) : Prop := a.date ≤ b.date

instance : DecidableRel eventLE := fun a b => inferInstanceAs (Decidable (a.date ≤ b.date))

instance : IsTotal Event eventLE := ⟨fun a b => Int.le_total a.date b.date⟩

instance : IsTrans Event eventLE := ⟨fun _ _ _ h h' => le_trans h h'⟩

/-- Lines 134 and 312–318: map every record, sort ascending by `date`
(a comparison sort over `eventLE`), and drop events without an image. -/
def normalizeRecords (lang : Lang) (now : Int) (records : List Record) : List Event :=
  (List.insertionSort eventLE (records.map (toEvent lang now))).filter
    (fun e => e.absoluteImageUrl != "")

/-! ### Raw records: field accesses that can throw

`record.dates`, `record.venues[0]`, `record.pictures[0]`,
`record.title[lang]` and `record.description[lang]` are dereferenced
without optional chaining, so a record missing one of those objects
makes the `.map` callback throw a `TypeError`, which aborts the whole
batch.  `salesContact` is reached only through `?.` and may be absent. -/

/-- An API record before the presence of its objects is known. -/
structure RawRecord where
  id : String
  dates : Option (List DateObject)
  venues : Option (List Venue)
  pictures : Option (List Picture)
  title : Option LocaleStrings
  description : Option LocaleStrings
  salesContact : Option Contact
deriving DecidableEq, Repr

/-- `none` exactly when normalizing the record throws. -/
def decodeRecord (r : RawRecord) : Option Record := do
  let dates ← r.dates
  let venues ← r.venues
  let pictures ← r.pictures
  let title ← r.title
  let description ← r.description
  pure ⟨r.id, dates, venues, pictures, title, description, r.salesContact⟩

/-- One raw record through the normalizer; `none` models the throw. -/
def toEventRaw (lang : Lang) (now : Int) (r : RawRecord) : Option Event :=
  (decodeRecord r).map (toEvent lang now)

/-- Decode a whole batch; the first throwing record aborts everything. -/
def decodeAll : List RawRecord → Option (List Record)
  | [] => some []
  | r :: rs =>
    match decodeRecord r with
    | none => none
    | some rec =>
      match decodeAll rs with
      | none => none
      | some recs => some (rec :: recs)

/-- The `.map` over the raw batch: a single throwing record aborts the
whole call, so the result is `none` unless every record decodes. -/
def normalizeRaw (lang : Lang) (now : Int) (records : List RawRecord) :
    Option (List Event) :=
  (decodeAll records).map (normalizeRecords lang now)

/-- The spec's fallback chain: the first present-and-nonempty value,
else the default. -/
def fallbackChain : List (Option String) → String → String
  | [], d => d
  | v :: vs, d => jsOrS v (fallbackChain vs d)

/-- A locale value that is absent or the empty string (falsy). -/
def optEmpty (o : Option String) : Prop := o = none ∨ o = some ""

/-! ### Concrete sample data, used by the witnesses -/

/-- A well-formed record: one past single-day window, one picture with a
relative preview URL, French title and description. -/
def sampleRecord : Record :=
  { id := "id1"
    dates := [⟨86400000, 90000000, none⟩]
    venues := []
    pictures := [⟨some ⟨some ⟨some "/img/a.png"⟩⟩⟩]
    title := ⟨some "Titre", none, none⟩
    description := ⟨some "<p>Bonjour</p>", none, none⟩
    salesContact := none }

/-- A record with no pictures at all (hence no preview URL). -/
def sampleRecordNoImage : Record :=
  { id := "id2"
    dates := [⟨86400000, 90000000, none⟩]
    venues := []
    pictures := []
    title := ⟨none, none, none⟩
    description := ⟨none, none, none⟩
    salesContact := none }

/-- `sampleRecord` in raw form: every top-level object present. -/
def rawGood : RawRecord :=
  { id := "id1"
    dates := some [⟨86400000, 90000000, none⟩]
    venues := some []
    pictures := some [⟨some ⟨some ⟨some "/img/a.png"⟩⟩⟩]
    title := some ⟨some "Titre", none, none⟩
    description := some ⟨some "<p>Bonjour</p>", none, none⟩
    salesContact := none }

/-- A raw record whose `title` object is missing: `record.title[lang]`
throws a `TypeError` on it. -/
def rawNoTitle : RawRecord :=
  { id := "id3"
    dates := some [⟨86400000, 90000000, none⟩]
    venues := some []
    pictures := some [⟨some ⟨some ⟨some "/img/b.png"⟩⟩⟩]
    title := none
    description := some ⟨some "x", none, none⟩
    salesContact := none }

end Echo

open Echo

theorem selectLoop_eq (now : Int) (dates : List DateObject) :
    selectLoop now dates =
      (match dates.find? (fun d => decide (d.dFrom ≥ now)) with
       | some d => some d
       | none => dates.getLast?) := by
  induction dates with
  | nil => rfl
  | cons d ds ih =>
    cases ds with
    | nil =>
      by_cases h : d.dFrom ≥ now <;> simp [selectLoop, List.find?, h]
    | cons d' ds' =>
      by_cases h : d.dFrom ≥ now
      · simp [selectLoop, List.find?, h]
      · simp only [selectLoop, if_neg h]
        rw [ih]
        simp [List.find?, h, List.getLast?]

/-- C3: the date-window selector returns the first entry of `dates[]`
whose `from` is `>= now`; with no qualifying entry a singleton list's
only entry, or for longer lists the last entry examined (the last
element), is returned; and an empty `dates[]` yields
`{from: now, to: now, openingHours: null}`.  Stated as: the code's
selector coincides with the selector transcribed from the claim's
words. -/
theorem C3_date_window_selector (dates : List DateObject) (now : Int) :
    selectWindow dates now = selectWindowSpec dates now := by
  unfold selectWindow selectWindowSpec
  rw [selectLoop_eq]
  cases h : dates.find? (fun d => decide (d.dFrom ≥ now)) with
  | some d => rfl
  | none =>
    cases hl : dates.getLast? with
    | some d => rfl
    | none => rfl

/-- C10: for every record and requested locale, the normalized event's
`url` is exactly `https://www.echo.lu/en/experiences/` followed by the
record's id — always the English-locale page, whatever `lang` is. -/
theorem C10_url_always_english (lang : Lang) (now : Int) (r : Record) :
    (toEvent lang now r).url = "https://www.echo.lu/en/experiences/" ++ r.id := rfl

/-- C9: normalization is a pure function of `(records, now, locale)`:
identical inputs produce character-identical `dateString`s and the
identical output list (order and filtering included). -/
theorem C9_deterministic (lang lang' : Lang) (now now' : Int) (r r' : Record)
    (records records' : List Record)
    (hl : lang = lang') (hn : now = now') (hr : r = r')
    (hrec : records = records') :
    (toEvent lang now r).dateString = (toEvent lang' now' r').dateString ∧
    normalizeRecords lang now records = normalizeRecords lang' now' records' := by
  subst hl; subst hn; subst hr; subst hrec
  exact ⟨rfl, rfl⟩

theorem C9_deterministic_witness :
    (toEvent .fr 0 sampleRecord).dateString = (toEvent .fr 0 sampleRecord).dateString ∧
    normalizeRecords .fr 0 [sampleRecord] = normalizeRecords .fr 0 [sampleRecord] :=
  C9_deterministic .fr .fr 0 0 sampleRecord sampleRecord [sampleRecord] [sampleRecord]
    rfl rfl rfl rfl

/-- C1 fails on the code: the whitespace collapse
`.replace(/\s+/g, ' ')` runs after the `'\n\n'` join, and JavaScript
`\s` matches `'\n'`, so the blank-line separator is collapsed to a
single space: the pipeline does not produce `"Hello\n\nWorld"` on the
spec's sample input. -/
theorem C1_sanitizer_counterexample :
    sanitizeDescription "<style>.a\x7b\x7d</style><p>Hello</p><p>World</p>" ≠
      "Hello\n\nWorld" := by
  decide

/-- C1 (amended): on the input
`"<style>.a{}</style><p>Hello</p><p>World</p>"` the sanitization
pipeline yields `"Hello World"` — the style block is removed and the
two paragraphs are extracted, but the `'\n\n'` separator of the join is
then collapsed into a single space by the whitespace-collapsing step. -/
theorem C1_sanitizer_amended :
    sanitizeDescription "<style>.a\x7b\x7d</style><p>Hello</p><p>World</p>" =
      "Hello World" := by
  decide

/-- C2 fails on the code: the advance test compares only the hour
(`now.getHours() > parseInt(from.split(':')[0])`), not the full time of
day.  At a Wednesday 10:30 (weekday 3, hours 10, minutes 30) with a
Wednesday entry whose `from` is `"10:00"`, the time of day 10:30
exceeds 10:00, so the claim requires the candidate to advance one week
— but the code keeps the current week's occurrence since `10 > 10` is
false. -/
theorem C2_advance_counterexample :
    jsGetDay 556200000 = 3 ∧ jsGetHours 556200000 = 10 ∧
    jsGetMinutes 556200000 = 30 ∧
    possibleDateFor 556200000 3 ⟨"10:00"⟩ = 556200000 ∧
    possibleDateFor 556200000 3 ⟨"10:00"⟩ ≠ jsSetDay 556200000 3 + weekMs := by
  decide

/-- C2 (amended): the candidate for a weekday entry is advanced by
exactly one week iff either the entry's weekday is today's and
`now.getHours()` strictly exceeds the hour component of the entry's
`from` (minutes are ignored, so Wednesday 10:30 with `from = "10:00"`
does not advance), or the weekday index is earlier than today's; and
with only a `monday` entry of `from = "10:00"` and `now` a Wednesday
09:00, the candidate is the following Monday (one week past the current
week's Monday). -/
theorem C2_advance_condition_amended :
    (∀ (now : Int) (index : Nat) (e : Entry) (h : Int),
      jsParseInt (splitColonHead e.hFrom) = some h →
      (possibleDateFor now index e = jsSetDay now index + weekMs ↔
        ((index : Int) = jsGetDay now ∧ jsGetHours now > h) ∨
          (index : Int) < jsGetDay now)) ∧
    (∀ now : Int, jsGetDay now = 3 → jsGetHours now = 9 →
      possibleDateFor now 1 ⟨"10:00"⟩ = jsSetDay now 1 + weekMs) := by
  constructor
  · intro now index e h hparse
    unfold possibleDateFor
    rw [hparse]
    have hweek : (0 : Int) < weekMs := by decide
    by_cases h1 : (index : Int) = jsGetDay now
    · by_cases h2 : jsGetHours now > h
      · have h3 : ¬((index : Int) < jsGetDay now) := by omega
        simp [h1, h2, h3, gtNaN]
      · have h3 : ¬((index : Int) < jsGetDay now) := by omega
        simp [h1, h2, h3, gtNaN]
        all_goals omega
    · by_cases h3 : (index : Int) < jsGetDay now
      · simp [h1, h3, gtNaN]
      · simp [h1, h3, gtNaN]
        all_goals omega
  · intro now hd hh
    unfold possibleDateFor
    have : jsParseInt (splitColonHead (Entry.hFrom ⟨"10:00"⟩)) = some 10 := by decide
    rw [this]
    rw [hd]
    simp [gtNaN]

theorem C2_advance_condition_amended_witness :
    possibleDateFor 550800000 1 ⟨"10:00"⟩ = jsSetDay 550800000 1 + weekMs :=
  C2_advance_condition_amended.2 550800000 (by decide) (by decide)

/-- C5: for a non-recurring window `(dateFrom, dateTo)`, a span of
strictly more than 24 hours renders `"From <dd/MM/yyyy> to
<dd/MM/yyyy>"`; at or below the 24-hour boundary the result is
`"<Weekday>, <dd/MM/yyyy>, <HH:MM>"` when both instants render the same
`dd/MM/yyyy` date and `"<Weekday>, <dd/MM/yyyy>, <HH:MM>-<HH:MM>"` when
they differ. -/
theorem C5_non_recurring_boundary (lang : Lang) (dateFrom dateTo : Int) :
    (dateTo - dateFrom > 86400000 →
      nonRecurringDateString lang dateFrom dateTo =
        "From " ++ fmtDate dateFrom ++ " to " ++ fmtDate dateTo) ∧
    (dateTo - dateFrom ≤ 86400000 → fmtDate dateFrom = fmtDate dateTo →
      nonRecurringDateString lang dateFrom dateTo =
        weekdayName lang dateFrom ++ ", " ++ fmtDate dateFrom ++ ", " ++
          fmtHM dateFrom) ∧
    (dateTo - dateFrom ≤ 86400000 → fmtDate dateFrom ≠ fmtDate dateTo →
      nonRecurringDateString lang dateFrom dateTo =
        weekdayName lang dateFrom ++ ", " ++ fmtDate dateFrom ++ ", " ++
          fmtHM dateFrom ++ "-" ++ fmtHM dateTo) := by
  refine ⟨fun h => ?_, fun h h2 => ?_, fun h h2 => ?_⟩ <;>
    simp only [nonRecurringDateString]
  · rw [if_pos (by omega : dateTo - dateFrom > 24 * 60 * 60 * 1000)]
  · rw [if_neg (by omega : ¬dateTo - dateFrom > 24 * 60 * 60 * 1000), if_pos h2]
  · rw [if_neg (by omega : ¬dateTo - dateFrom > 24 * 60 * 60 * 1000), if_neg h2]

theorem C5_non_recurring_boundary_witness :
    nonRecurringDateString .en 0 86500000 = "From 01/01/1970 to 02/01/1970" ∧
    nonRecurringDateString .en 0 86399000 = "Thursday, 01/01/1970, 00:00" ∧
    nonRecurringDateString .en 0 86400000 = "Thursday, 01/01/1970, 00:00-00:00" :=
  ⟨((C5_non_recurring_boundary .en 0 86500000).1 (by decide)).trans (by decide),
   ((C5_non_recurring_boundary .en 0 86399000).2.1 (by decide) (by decide)).trans
     (by decide),
   ((C5_non_recurring_boundary .en 0 86400000).2.2 (by decide) (by decide)).trans
     (by decide)⟩

theorem jsOrS_cases (o : Option String) (dflt : String) :
    (optEmpty o ∧ jsOrS o dflt = dflt) ∨
      (∃ s, o = some s ∧ s ≠ "" ∧ jsOrS o dflt = s) := by
  cases o with
  | none => exact Or.inl ⟨Or.inl rfl, rfl⟩
  | some s =>
    by_cases h : s = ""
    · subst h
      exact Or.inl ⟨Or.inr rfl, by simp [jsOrS]⟩
    · exact Or.inr ⟨s, rfl, h, by simp [jsOrS, h]⟩

theorem jsOrS_of_empty {o : Option String} (h : optEmpty o) (dflt : String) :
    jsOrS o dflt = dflt := by
  rcases h with h | h <;> subst h <;> simp [jsOrS]

theorem locale_get_empty {lang : Lang} {t : LocaleStrings}
    (hf : optEmpty t.fr) (hd : optEmpty t.de) (he : optEmpty t.en) :
    optEmpty (t.get lang) := by
  cases lang <;> simpa [LocaleStrings.get] using ‹_›

theorem chain_cases (lang : Lang) (t : LocaleStrings) (dflt : String) :
    ((optEmpty t.fr ∧ optEmpty t.de ∧ optEmpty t.en) →
      fallbackChain [t.get lang, t.fr, t.de, t.en] dflt = dflt) ∧
    (¬(optEmpty t.fr ∧ optEmpty t.de ∧ optEmpty t.en) →
      ∃ s, s ≠ "" ∧
        (t.get lang = some s ∨ t.fr = some s ∨ t.de = some s ∨ t.en = some s) ∧
        fallbackChain [t.get lang, t.fr, t.de, t.en] dflt = s) := by
  constructor
  · rintro ⟨hf, hd, he⟩
    show jsOrS (t.get lang) (jsOrS t.fr (jsOrS t.de (jsOrS t.en dflt))) = dflt
    rw [jsOrS_of_empty (locale_get_empty hf hd he),
        jsOrS_of_empty hf, jsOrS_of_empty hd, jsOrS_of_empty he]
  · intro hne
    show ∃ s, s ≠ "" ∧ _ ∧
      jsOrS (t.get lang) (jsOrS t.fr (jsOrS t.de (jsOrS t.en dflt))) = s
    rcases jsOrS_cases (t.get lang) (jsOrS t.fr (jsOrS t.de (jsOrS t.en dflt))) with
      ⟨_, heq⟩ | ⟨s, hs, hsne, heq⟩
    · rw [heq]
      rcases jsOrS_cases t.fr (jsOrS t.de (jsOrS t.en dflt)) with
        ⟨hf, heq2⟩ | ⟨s, hs, hsne, heq2⟩
      · rw [heq2]
        rcases jsOrS_cases t.de (jsOrS t.en dflt) with
          ⟨hd, heq3⟩ | ⟨s, hs, hsne, heq3⟩
        · rw [heq3]
          rcases jsOrS_cases t.en dflt with ⟨he, _⟩ | ⟨s, hs, hsne, heq4⟩
          · exact absurd ⟨hf, hd, he⟩ hne
          · exact ⟨s, hsne, Or.inr (Or.inr (Or.inr hs)), heq4⟩
        · exact ⟨s, hsne, Or.inr (Or.inr (Or.inl hs)), heq3⟩
      · exact ⟨s, hsne, Or.inr (Or.inl hs), heq2⟩
    · exact ⟨s, hsne, Or.inl hs, heq⟩

/-- C7: title and description resolve through the chain
requested-locale value, else French, else German, else English, else
the placeholder `"Événement"` (title) or `""` (description); the final
fallback fires exactly when all three locale values are absent or
empty — otherwise the result is one of the present nonempty locale
values (the first in chain order). -/
theorem C7_locale_fallback_chain (lang : Lang) (t d : LocaleStrings) :
    resolveTitle lang t = fallbackChain [t.get lang, t.fr, t.de, t.en] "Événement" ∧
    resolveDescriptionText lang d = fallbackChain [d.get lang, d.fr, d.de, d.en] "" ∧
    ((optEmpty t.fr ∧ optEmpty t.de ∧ optEmpty t.en) →
      resolveTitle lang t = "Événement") ∧
    ((optEmpty d.fr ∧ optEmpty d.de ∧ optEmpty d.en) →
      resolveDescriptionText lang d = "") ∧
    (¬(optEmpty t.fr ∧ optEmpty t.de ∧ optEmpty t.en) →
      ∃ s, s ≠ "" ∧
        (t.get lang = some s ∨ t.fr = some s ∨ t.de = some s ∨ t.en = some s) ∧
        resolveTitle lang t = s) ∧
    (¬(optEmpty d.fr ∧ optEmpty d.de ∧ optEmpty d.en) →
      ∃ s, s ≠ "" ∧
        (d.get lang = some s ∨ d.fr = some s ∨ d.de = some s ∨ d.en = some s) ∧
        resolveDescriptionText lang d = s) :=
  ⟨rfl, rfl,
   (chain_cases lang t "Événement").1,
   (chain_cases lang d "").1,
   (chain_cases lang t "Événement").2,
   (chain_cases lang d "").2⟩

theorem C7_locale_fallback_chain_witness :
    resolveTitle .en ⟨none, some "", none⟩ = "Événement" ∧
    resolveDescriptionText .en ⟨none, none, none⟩ = "" :=
  ⟨(C7_locale_fallback_chain .en ⟨none, some "", none⟩ ⟨none, none, none⟩).2.2.1
     ⟨Or.inl rfl, Or.inr rfl, Or.inl rfl⟩,
   (C7_locale_fallback_chain .en ⟨none, some "", none⟩ ⟨none, none, none⟩).2.2.2.1
     ⟨Or.inl rfl, Or.inl rfl, Or.inl rfl⟩⟩

theorem toEvent_absoluteImageUrl (lang : Lang) (now : Int) (r : Record) :
    (toEvent lang now r).absoluteImageUrl =
      if recordImageUrl r ≠ "" then
        (if List.isPrefixOf "http".toList (recordImageUrl r).toList then recordImageUrl r
         else "https://echo.lu" ++ recordImageUrl r)
      else "" := rfl

/-- C6: for every batch and clock, the normalizer's output is sorted by
`date` (pairwise non-decreasing) and every output event has a nonempty
`absoluteImageUrl`; moreover the event of a record with no picture
preview URL is never in the output, whatever its dates. -/
theorem C6_sorted_and_image_filtered (lang : Lang) (now : Int)
    (records : List Record) :
    (normalizeRecords lang now records).Pairwise eventLE ∧
    (∀ e ∈ normalizeRecords lang now records, e.absoluteImageUrl ≠ "") ∧
    (∀ r : Record, recordImageUrl r = "" →
      toEvent lang now r ∉ normalizeRecords lang now records) := by
  refine ⟨?_, ?_, ?_⟩
  · simp only [normalizeRecords]
    exact List.Pairwise.filter _ (List.sorted_insertionSort eventLE _)
  · intro e he
    simp only [normalizeRecords] at he
    have h := List.of_mem_filter he
    simpa using h
  · intro r hr hmem
    simp only [normalizeRecords] at hmem
    have h := List.of_mem_filter hmem
    rw [toEvent_absoluteImageUrl, hr] at h
    simp at h

theorem C6_sorted_and_image_filtered_witness :
    (toEvent .fr 0 sampleRecord).absoluteImageUrl ≠ "" ∧
    toEvent .fr 0 sampleRecordNoImage ∉
      normalizeRecords .fr 0 [sampleRecord, sampleRecordNoImage] :=
  ⟨(C6_sorted_and_image_filtered .fr 0 [sampleRecord, sampleRecordNoImage]).2.1
     (toEvent .fr 0 sampleRecord) (by decide),
   (C6_sorted_and_image_filtered .fr 0 [sampleRecord, sampleRecordNoImage]).2.2
     sampleRecordNoImage (by decide)⟩

/-- C8 fails on the code: `record.title[lang]` (and the `dates`,
`venues[0]`, `pictures[0]`, `description[lang]` accesses) has no
optional chaining, so a record whose `title` object is missing throws a
`TypeError` inside the `.map` callback and the whole batch aborts —
no output entry is produced for it, and none for the well-formed
records either. -/
theorem C8_missing_title_aborts_batch :
    decodeRecord rawNoTitle = none ∧
    normalizeRaw .fr 0 [rawGood, rawNoTitle] = none ∧
    normalizeRaw .fr 0 [rawGood] ≠ none := by
  decide

theorem decodeAll_isSome (rs : List RawRecord)
    (hall : ∀ x ∈ rs, (decodeRecord x).isSome = true) :
    (decodeAll rs).isSome = true := by
  induction rs with
  | nil => rfl
  | cons x xs ih =>
    have hx := hall x (by simp)
    obtain ⟨rx, hrx⟩ := Option.isSome_iff_exists.mp hx
    have hxs := ih (fun y hy => hall y (by simp [hy]))
    obtain ⟨l, hl⟩ := Option.isSome_iff_exists.mp hxs
    simp [decodeAll, hrx, hl]

/-- C8 (amended): normalization degrades gracefully exactly over the
optionally-chained parts — a record may lack `salesContact`, venue
location or address components, picture previews, or have empty
`venues`/`pictures` arrays and still produce an output entry — but the
five top-level objects `dates`, `venues`, `pictures`, `title`,
`description` must be present; a batch whose records all have them
normalizes without aborting. -/
theorem C8_graceful_when_objects_present (lang : Lang) (now : Int)
    (r : RawRecord) (rs : List RawRecord)
    (hd : r.dates.isSome = true) (hv : r.venues.isSome = true)
    (hp : r.pictures.isSome = true) (ht : r.title.isSome = true)
    (hdesc : r.description.isSome = true)
    (hall : ∀ x ∈ rs, (decodeRecord x).isSome = true) :
    (∃ e, toEventRaw lang now r = some e) ∧
    (normalizeRaw lang now rs).isSome = true := by
  constructor
  · obtain ⟨ds, hds⟩ := Option.isSome_iff_exists.mp hd
    obtain ⟨vs, hvs⟩ := Option.isSome_iff_exists.mp hv
    obtain ⟨ps, hps⟩ := Option.isSome_iff_exists.mp hp
    obtain ⟨ts, hts⟩ := Option.isSome_iff_exists.mp ht
    obtain ⟨dsc, hdsc⟩ := Option.isSome_iff_exists.mp hdesc
    refine ⟨toEvent lang now ⟨r.id, ds, vs, ps, ts, dsc, r.salesContact⟩, ?_⟩
    simp [toEventRaw, decodeRecord, hds, hvs, hps, hts, hdsc]
  · obtain ⟨l, hl⟩ := Option.isSome_iff_exists.mp (decodeAll_isSome rs hall)
    simp [normalizeRaw, hl]

theorem C8_graceful_when_objects_present_witness :
    (∃ e, toEventRaw .fr 0 rawGood = some e) ∧
    (normalizeRaw .fr 0 [rawGood]).isSome = true :=
  C8_graceful_when_objects_present .fr 0 rawGood [rawGood] (by decide) (by decide)
    (by decide) (by decide) (by decide) (by decide)

theorem candList_cons_none (now a b : Int) (oh : OpeningHours) (p : Nat × Day)
    (l : List (Nat × Day)) (h : oh.get p.2 = none) :
    candList now a b oh (p :: l) = candList now a b oh l := by
  simp [candList, List.filterMap_cons, h]

theorem candList_cons_valid (now a b : Int) (oh : OpeningHours) (p : Nat × Day)
    (l : List (Nat × Day)) (e : Entry) (h : oh.get p.2 = some e)
    (hval : a ≤ possibleDateFor now p.1 e ∧ possibleDateFor now p.1 e ≤ b) :
    candList now a b oh (p :: l) =
      (possibleDateFor now p.1 e, e.hFrom) :: candList now a b oh l := by
  simp [candList, List.filterMap_cons, h, hval]

theorem candList_cons_invalid (now a b : Int) (oh : OpeningHours) (p : Nat × Day)
    (l : List (Nat × Day)) (e : Entry) (h : oh.get p.2 = some e)
    (hval : ¬(a ≤ possibleDateFor now p.1 e ∧ possibleDateFor now p.1 e ≤ b)) :
    candList now a b oh (p :: l) = candList now a b oh l := by
  simp [candList, List.filterMap_cons, h, hval]

theorem pickMin_cons_none (c : Int × String) (cs : List (Int × String)) :
    pickMin none (c :: cs) = pickMin (some c) cs := rfl

theorem pickMin_cons_some (x c : Int × String) (cs : List (Int × String)) :
    pickMin (some x) (c :: cs) =
      pickMin (if c.1 < x.1 then some c else some x) cs := rfl

theorem foldl_tryDay_eq_pickMin (now a b : Int) (oh : OpeningHours) :
    ∀ (l : List (Nat × Day)) (acc : Option (Int × String)),
      l.foldl (tryDay now a b oh) acc = pickMin acc (candList now a b oh l) := by
  intro l
  induction l with
  | nil => intro acc; rfl
  | cons p l' ih =>
    intro acc
    rw [List.foldl_cons]
    by_cases hoh : ∃ e, oh.get p.2 = some e
    · obtain ⟨e, hoh⟩ := hoh
      by_cases hval : a ≤ possibleDateFor now p.1 e ∧ possibleDateFor now p.1 e ≤ b
      · rw [candList_cons_valid now a b oh p l' e hoh hval]
        cases acc with
        | none =>
          have hstep : tryDay now a b oh none p =
              some (possibleDateFor now p.1 e, e.hFrom) := by
            simp [tryDay, hoh, hval]
          rw [hstep, pickMin_cons_none]
          exact ih _
        | some x =>
          rw [pickMin_cons_some]
          by_cases hlt : possibleDateFor now p.1 e < x.1
          · have hstep : tryDay now a b oh (some x) p =
                some (possibleDateFor now p.1 e, e.hFrom) := by
              simp [tryDay, hoh, hval, hlt]
            rw [hstep, if_pos hlt]
            exact ih _
          · have hstep : tryDay now a b oh (some x) p = some x := by
              simp [tryDay, hoh, hval, hlt]
            rw [hstep, if_neg hlt]
            exact ih _
      · rw [candList_cons_invalid now a b oh p l' e hoh hval]
        have hstep : tryDay now a b oh acc p = acc := by
          simp [tryDay, hoh, hval]
        rw [hstep]
        exact ih acc
    · have hoh' : oh.get p.2 = none := by
        cases h : oh.get p.2 with
        | none => rfl
        | some e => exact absurd ⟨e, h⟩ hoh
      rw [candList_cons_none now a b oh p l' hoh']
      have hstep : tryDay now a b oh acc p = acc := by simp [tryDay, hoh']
      rw [hstep]
      exact ih acc

theorem pickMin_nil (acc : Option (Int × String)) : pickMin acc [] = acc := rfl

theorem pickMin_le (C : List (Int × String)) :
    ∀ (acc : Option (Int × String)) r, pickMin acc C = some r →
      (∀ x, acc = some x → r.1 ≤ x.1) ∧ (∀ c ∈ C, r.1 ≤ c.1) := by
  induction C with
  | nil =>
    intro acc r h
    rw [pickMin_nil] at h
    refine ⟨fun x hx => ?_, fun c hc => ?_⟩
    · rw [h] at hx
      cases hx
      exact le_refl _
    · cases hc
  | cons c cs ih =>
    intro acc r h
    cases acc with
    | none =>
      rw [pickMin_cons_none] at h
      obtain ⟨hacc, hcs⟩ := ih (some c) r h
      refine ⟨fun x hx => ?_, fun y hy => ?_⟩
      · cases hx
      · rcases List.mem_cons.mp hy with hy | hy
        · subst hy
          exact hacc y rfl
        · exact hcs y hy
    | some x =>
      rw [pickMin_cons_some] at h
      by_cases hlt : c.1 < x.1
      · rw [if_pos hlt] at h
        obtain ⟨hacc, hcs⟩ := ih (some c) r h
        refine ⟨fun y hy => ?_, fun y hy => ?_⟩
        · cases hy
          exact le_trans (hacc c rfl) (le_of_lt hlt)
        · rcases List.mem_cons.mp hy with hy | hy
          · subst hy
            exact hacc y rfl
          · exact hcs y hy
      · rw [if_neg hlt] at h
        obtain ⟨hacc, hcs⟩ := ih (some x) r h
        refine ⟨fun y hy => ?_, fun y hy => ?_⟩
        · cases hy
          exact hacc x rfl
        · rcases List.mem_cons.mp hy with hy | hy
          · subst hy
            exact le_trans (hacc x rfl) (le_of_not_lt hlt)
          · exact hcs y hy

theorem pickMin_mem (C : List (Int × String)) :
    ∀ (acc : Option (Int × String)) r, pickMin acc C = some r →
      acc = some r ∨ r ∈ C := by
  induction C with
  | nil => intro acc r h; exact Or.inl h
  | cons c cs ih =>
    intro acc r h
    cases acc with
    | none =>
      rw [pickMin_cons_none] at h
      rcases ih (some c) r h with hc | hc
      · cases hc
        exact Or.inr (List.mem_cons_self _ _)
      · exact Or.inr (List.mem_cons_of_mem _ hc)
    | some x =>
      rw [pickMin_cons_some] at h
      by_cases hlt : c.1 < x.1
      · rw [if_pos hlt] at h
        rcases ih (some c) r h with hc | hc
        · cases hc
          exact Or.inr (List.mem_cons_self _ _)
        · exact Or.inr (List.mem_cons_of_mem _ hc)
      · rw [if_neg hlt] at h
        rcases ih (some x) r h with hc | hc
        · exact Or.inl hc
        · exact Or.inr (List.mem_cons_of_mem _ hc)

theorem pickMin_eq_none (C : List (Int × String)) :
    ∀ acc, pickMin acc C = none → acc = none ∧ C = [] := by
  induction C with
  | nil => intro acc h; exact ⟨h, rfl⟩
  | cons c cs ih =>
    intro acc h
    exfalso
    cases acc with
    | none =>
      rw [pickMin_cons_none] at h
      cases (ih (some c) h).1
    | some x =>
      rw [pickMin_cons_some] at h
      by_cases hlt : c.1 < x.1
      · rw [if_pos hlt] at h
        cases (ih (some c) h).1
      · rw [if_neg hlt] at h
        cases (ih (some x) h).1

theorem pickMin_stable (C : List (Int × String)) :
    ∀ r, (∀ c ∈ C, r.1 ≤ c.1) → pickMin (some r) C = some r := by
  induction C with
  | nil => intro r _; rfl
  | cons c cs ih =>
    intro r hle
    have hc : ¬c.1 < r.1 := not_lt.mpr (hle c (List.mem_cons_self _ _))
    rw [pickMin_cons_some, if_neg hc]
    exact ih r (fun y hy => hle y (List.mem_cons_of_mem _ hy))

theorem resolveNext_eq_pickMin (now a b : Int) (oh : OpeningHours) :
    resolveNext now a b oh = pickMin none (candidatesOf now a b oh) := by
  have hinner : ∀ acc, innerPass now a b oh acc =
      pickMin acc (candidatesOf now a b oh) := fun acc =>
    foldl_tryDay_eq_pickMin now a b oh daysOfWeekIdx acc
  show (List.range 7).foldl (fun acc _ => innerPass now a b oh acc) none = _
  rw [show List.range 7 = [0, 1, 2, 3, 4, 5, 6] from rfl]
  simp only [List.foldl_cons, List.foldl_nil, hinner]
  cases hres : pickMin none (candidatesOf now a b oh) with
  | none =>
    have hC : candidatesOf now a b oh = [] := (pickMin_eq_none _ none hres).2
    simp [hC, pickMin_nil]
  | some r =>
    have hle := (pickMin_le _ none r hres).2
    have hst := pickMin_stable _ r hle
    rw [hst, hst, hst, hst, hst, hst]

theorem candidatesOf_bounds (now a b : Int) (oh : OpeningHours) :
    ∀ c ∈ candidatesOf now a b oh, a ≤ c.1 ∧ c.1 ≤ b := by
  intro c hc
  simp only [candidatesOf, candList, List.mem_filterMap] at hc
  obtain ⟨p, _, hp⟩ := hc
  cases hoh : oh.get p.2 with
  | none => rw [hoh] at hp; cases hp
  | some e =>
    rw [hoh] at hp
    simp only [Option.some_bind] at hp
    by_cases hval : a ≤ possibleDateFor now p.1 e ∧ possibleDateFor now p.1 e ≤ b
    · simp only [if_pos hval] at hp
      cases hp
      exact hval
    · simp only [if_neg hval] at hp
      cases hp

/-- C4: a candidate occurrence is accepted only if it lies in the
closed interval `[dates[0].from, dates[0].to]` (always the record's
first window: `toEvent` feeds `recurringDateString` the head of
`record.dates`, whatever window the selector picked); the resolver's
result is the first minimum of the Sunday-first candidate list (the
earliest accepted candidate, ties to the weekday iterated first); and
when no candidate is accepted, the `dateString` falls back to
`"From <start> to <end>"` built from the selected window, with the
event's date set to that window's `dateFrom`. -/
theorem C4_first_window_earliest_fallback (lang : Lang)
    (now d0From d0To dateFrom dateTo : Int) (oh : OpeningHours) (r : Record) :
    (∀ d t, resolveNext now d0From d0To oh = some (d, t) →
      d0From ≤ d ∧ d ≤ d0To) ∧
    resolveNext now d0From d0To oh =
      pickMin none (candidatesOf now d0From d0To oh) ∧
    (∀ d t, resolveNext now d0From d0To oh = some (d, t) →
      (d, t) ∈ candidatesOf now d0From d0To oh ∧
        ∀ c ∈ candidatesOf now d0From d0To oh, d ≤ c.1) ∧
    (resolveNext now d0From d0To oh = none →
      recurringDateString lang now d0From d0To dateFrom dateTo oh =
        (dateFrom, "From " ++ fmtDate dateFrom ++ " to " ++ fmtDate dateTo)) ∧
    (∀ oh', (selectWindow r.dates now).2.2 = some oh' →
      (toEvent lang now r).date =
        (recurringDateString lang now (r.dates.headD ⟨now, now, none⟩).dFrom
          (r.dates.headD ⟨now, now, none⟩).dTo (selectWindow r.dates now).1
          ((selectWindow r.dates now).2.1) oh').1 ∧
      (toEvent lang now r).dateString =
        (recurringDateString lang now (r.dates.headD ⟨now, now, none⟩).dFrom
          (r.dates.headD ⟨now, now, none⟩).dTo (selectWindow r.dates now).1
          ((selectWindow r.dates now).2.1) oh').2) := by
  refine ⟨?_, resolveNext_eq_pickMin now d0From d0To oh, ?_, ?_, ?_⟩
  · intro d t h
    rw [resolveNext_eq_pickMin] at h
    rcases pickMin_mem _ none (d, t) h with hc | hc
    · cases hc
    · exact candidatesOf_bounds now d0From d0To oh (d, t) hc
  · intro d t h
    rw [resolveNext_eq_pickMin] at h
    constructor
    · rcases pickMin_mem _ none (d, t) h with hc | hc
      · cases hc
      · exact hc
    · exact (pickMin_le _ none (d, t) h).2
  · intro h
    simp [recurringDateString, h]
  · intro oh' hoh'
    simp only [toEvent, hoh']
    exact ⟨trivial, trivial⟩

theorem C4_first_window_earliest_fallback_witness :
    ((0:Int) ≤ 982800000 ∧ (982800000:Int) ≤ 8640000000) ∧
    recurringDateString .fr 550800000 0 0 86400000 90000000
        ⟨none, some ⟨"10:00"⟩, none, none, none, none, none⟩ =
      (86400000, "From " ++ fmtDate 86400000 ++ " to " ++ fmtDate 90000000) :=
  ⟨(C4_first_window_earliest_fallback .fr 550800000 0 8640000000 0 0
      ⟨none, some ⟨"10:00"⟩, none, none, none, none, none⟩ sampleRecord).1
      982800000 "10:00" (by decide),
   (C4_first_window_earliest_fallback .fr 550800000 0 0 86400000 90000000
      ⟨none, some ⟨"10:00"⟩, none, none, none, none, none⟩ sampleRecord).2.2.2.1
      (by decide)⟩
